import Mathlib

/-!
Verification of the audiobook chapter-build pipeline (app/main.py,
app/services/tts.py, app/services/merger.py, app/services/cleaner.py,
app/storage/__init__.py, app/storage/storage_ops.py, app/core/atomic_ops.py).

The Python code is shallowly embedded: strings become `List Char`, byte
blobs become `List Nat` (each entry a byte value), the blob store becomes
an association list from paths to blobs, and external collaborators
(the TTS network call, the ffmpeg invocation, the GCS client) become
explicit oracles or contract-level models.
-/

namespace Audiobook

/-! ## Character classes

`isPySpace` models the character class matched by Python's regex `\s`
(and by `str.split()` / `str.strip()` with no argument): ASCII whitespace
plus the Unicode whitespace code points recognised by CPython. -/

def isPySpace (c : Char) : Bool :=
  c = ' ' || c = '\t' || c = '\n' || c = '\x0b' || c = '\x0c' || c = '\r' ||
  c = '\x1c' || c = '\x1d' || c = '\x1e' || c = '\x1f' || c = '\x85' ||
  c = '\xa0' || c = ' ' ||
  (Char.ofNat 0x2000 ≤ c && c ≤ Char.ofNat 0x200a) ||
  c = ' ' || c = ' ' || c = ' ' || c = ' ' || c = '　'

/-- The separator class of the regex `[_-]+`. -/
def isSepChar (c : Char) : Bool :=
  c = '_' || c = '-'

/-- Characters kept by the regex substitution `[^a-z0-9\s_-]` -> `''`
(everything not in this class is removed). -/
def keepChar (c : Char) : Bool :=
  ('a' ≤ c && c ≤ 'z') || ('0' ≤ c && c ≤ '9') || c = '_' || c = '-' || isPySpace c

/-- Python `str.lower()` restricted to ASCII.  In every sanitizer below the
lowering step is immediately followed by the filter `keepChar`, which keeps
only ASCII characters, so only the ASCII case behaviour of `str.lower()`
can influence the final result. -/
def toLowerPy (c : Char) : Char :=
  if 'A' ≤ c && c ≤ 'Z' then Char.ofNat (c.toNat + 32) else c

/-! ## Cyrillic transliteration

The dictionary `cyrillic_map` appears verbatim in
`GoogleTTSService._transliterate_cyrillic`, `AudioMerger._transliterate_cyrillic`
and inline in `get_chapter_final_path`. -/

def cyrillicMap : List (Char × List Char) :=
  [('а', ['a']), ('б', ['b']), ('в', ['v']), ('г', ['g']), ('д', ['d']),
   ('е', ['e']), ('ё', ['y', 'o']),
   ('ж', ['z', 'h']), ('з', ['z']), ('и', ['i']), ('й', ['y']), ('к', ['k']),
   ('л', ['l']), ('м', ['m']),
   ('н', ['n']), ('о', ['o']), ('п', ['p']), ('р', ['r']), ('с', ['s']),
   ('т', ['t']), ('у', ['u']),
   ('ф', ['f']), ('х', ['h']), ('ц', ['t', 's']), ('ч', ['c', 'h']),
   ('ш', ['s', 'h']), ('щ', ['s', 'c', 'h']),
   ('ъ', []), ('ы', ['y']), ('ь', []), ('э', ['e']), ('ю', ['y', 'u']),
   ('я', ['y', 'a']),
   ('А', ['A']), ('Б', ['B']), ('В', ['V']), ('Г', ['G']), ('Д', ['D']),
   ('Е', ['E']), ('Ё', ['Y', 'o']),
   ('Ж', ['Z', 'h']), ('З', ['Z']), ('И', ['I']), ('Й', ['Y']), ('К', ['K']),
   ('Л', ['L']), ('М', ['M']),
   ('Н', ['N']), ('О', ['O']), ('П', ['P']), ('Р', ['R']), ('С', ['S']),
   ('Т', ['T']), ('У', ['U']),
   ('Ф', ['F']), ('Х', ['H']), ('Ц', ['T', 's']), ('Ч', ['C', 'h']),
   ('Ш', ['S', 'h']), ('Щ', ['S', 'c', 'h']),
   ('Ъ', []), ('Ы', ['Y']), ('Ь', []), ('Э', ['E']), ('Ю', ['Y', 'u']),
   ('Я', ['Y', 'a'])]

/-- `cyrillic_map.get(char, char)`: one character of the transliteration. -/
def translitChar (c : Char) : List Char :=
  match cyrillicMap.lookup c with
  | some s => s
  | none => [c]

/-! ## Separator-run collapsing

`collapseRuns p` models `re.sub(P+, '_', s)` where `P` is the character
class decided by `p`: every maximal run of `P`-characters is replaced by
a single underscore. -/

mutual

def collapseRuns (p : Char → Bool) : List Char → List Char
  | [] => []
  | c :: cs => if p c then '_' :: skipRun p cs else c :: collapseRuns p cs

def skipRun (p : Char → Bool) : List Char → List Char
  | [] => []
  | c :: cs => if p c then skipRun p cs else c :: collapseRuns p cs

end

/-- Python `str.strip('_-')`: drop separator characters from both ends. -/
def stripSep (l : List Char) : List Char :=
  ((l.dropWhile isSepChar).reverse.dropWhile isSepChar).reverse

/-- Python `str.strip()` with no argument: drop whitespace from both ends. -/
def pyStrip (l : List Char) : List Char :=
  ((l.dropWhile isPySpace).reverse.dropWhile isPySpace).reverse

/-! ## The three sanitizer sites

Each of the following three definitions embeds one source location; the
bodies are duplicated in the source and therefore duplicated here. -/

/-- `GoogleTTSService._sanitize_filename` (app/services/tts.py 234-263):
transliterate, lower, drop `[^a-z0-9\s_-]`, `\s+` -> `_`, `[_-]+` -> `_`,
take 50, strip `_-`, fall back to "untitled". -/
def ttsSanitizeFilename (title : String) : String :=
  let s1 := title.data.flatMap translitChar
  let s2 := s1.map toLowerPy
  let s3 := s2.filter keepChar
  let s4 := collapseRuns isPySpace s3
  let s5 := collapseRuns isSepChar s4
  let s6 := s5.take 50
  let s7 := stripSep s6
  if s7 = [] then "untitled" else String.mk s7

/-- `AudioMerger._sanitize_filename` (app/services/merger.py 209-238);
the body is a verbatim copy of the TTS sanitizer in the source. -/
def mergerSanitizeFilename (title : String) : String :=
  let s1 := title.data.flatMap translitChar
  let s2 := s1.map toLowerPy
  let s3 := s2.filter keepChar
  let s4 := collapseRuns isPySpace s3
  let s5 := collapseRuns isSepChar s4
  let s6 := s5.take 50
  let s7 := stripSep s6
  if s7 = [] then "untitled" else String.mk s7

/-- The inline sanitization of `get_chapter_final_path`
(app/core/atomic_ops.py 194-219); again a verbatim copy in the source. -/
def atomicSafeTitle (title : String) : String :=
  let s1 := title.data.flatMap translitChar
  let s2 := s1.map toLowerPy
  let s3 := s2.filter keepChar
  let s4 := collapseRuns isPySpace s3
  let s5 := collapseRuns isSepChar s4
  let s6 := s5.take 50
  let s7 := stripSep s6
  if s7 = [] then "untitled" else String.mk s7

/-- The safe-title pipeline as the specification words it (spec section 6):
transliterate non-Latin letters with the fixed mapping, lowercase, strip to
the allowed set, collapse whitespace and runs of separators to a single
underscore (one combined pass), truncate to 50 characters, strip leading and
trailing separators, and turn an empty result into the literal "untitled".
The allowed-set strip keeps whitespace, since the spec collapses whitespace
only in the following step. -/
def specSafeTitle (title : String) : String :=
  let s1 := title.data.flatMap translitChar
  let s2 := s1.map toLowerPy
  let s3 := s2.filter keepChar
  let s4 := collapseRuns (fun c => isPySpace c || isSepChar c) s3
  let s5 := s4.take 50
  let s6 := stripSep s5
  if s6 = [] then "untitled" else String.mk s6

/-! ## Path construction -/

/-- Python `"%02d" % n` (the `{n:02d}` format). -/
def pad2 (n : Nat) : String :=
  if n < 10 then "0" ++ toString n else toString n

/-- Python `"%03d" % n` (the `{n:03d}` format). -/
def pad3 (n : Nat) : String :=
  if n < 10 then "00" ++ toString n
  else if n < 100 then "0" ++ toString n
  else toString n

/-- The file name built by `get_chapter_final_path`
(app/core/atomic_ops.py 221): `chapter_{num:02d}_{safe_title}.mp3`. -/
def getChapterFinalName (chapterNum : Nat) (chapterTitle : String) : String :=
  "chapter_" ++ pad2 chapterNum ++ "_" ++ atomicSafeTitle chapterTitle ++ ".mp3"

/-- The part file name built in `GoogleTTSService.synthesize_chapter`
(app/services/tts.py 161). -/
def partFileName (chapterNum partNum total : Nat) (chapterTitle : String) : String :=
  "chapter_" ++ pad2 chapterNum ++ "_part_" ++ pad3 partNum ++ "_of_" ++
    pad3 total ++ "_" ++ ttsSanitizeFilename chapterTitle ++ ".mp3"

/-- The storage path of a part (app/services/tts.py 166-169): the file name
under the parts subdirectory, itself under the book subdirectory when one is
set (the empty string models Python's falsy `book_subdir`). -/
def partStoragePath (bookSubdir partsSubdir : String) (chapterNum partNum total : Nat)
    (chapterTitle : String) : String :=
  if bookSubdir ≠ "" then
    bookSubdir ++ "/" ++ partsSubdir ++ "/" ++ partFileName chapterNum partNum total chapterTitle
  else
    partsSubdir ++ "/" ++ partFileName chapterNum partNum total chapterTitle

/-! ## The blob store

A store is an association list from paths to byte blobs.  `writeS` models an
atomic write (the reader of the model only ever observes the previous or the
complete new content, which is exactly the atomic-write contract both
adapters implement); `eraseS` removes a path; `findS` is a read. -/

abbrev Store := List (String × List Nat)

def findS : Store → String → Option (List Nat)
  | [], _ => none
  | (q, b) :: rest, p => if q = p then some b else findS rest p

def writeS : Store → String → List Nat → Store
  | [], p, content => [(p, content)]
  | (q, b) :: rest, p, content =>
    if q = p then (p, content) :: rest else (q, b) :: writeS rest p content

def eraseS : Store → String → Store
  | [], _ => []
  | (q, b) :: rest, p => if q = p then rest else (q, b) :: eraseS rest p

/-- `exists(path)`: never throws, returns a boolean. -/
def existsS (st : Store) (p : String) : Bool :=
  (findS st p).isSome

/-- Generic prefix test on lists. -/
def listStarts [BEq α] : List α → List α → Bool
  | [], _ => true
  | _ :: _, [] => false
  | a :: as, b :: bs => a == b && listStarts as bs

/-- Python `needle in hay` (substring test). -/
def containsSeg (needle : List Char) : List Char → Bool
  | [] => needle.isEmpty
  | c :: rest => listStarts needle (c :: rest) || containsSeg needle rest

/-- Python `s.endswith(suf)`. -/
def pyEndsWith (s suf : String) : Bool :=
  listStarts suf.data.reverse s.data.reverse

/-- `list_files(prefix)` where the prefix names a directory: all stored paths
below that directory (LocalStorageAdapter.list_files, app/storage/__init__.py
140-153, directory branch). -/
def listFilesS (st : Store) (dir : String) : List String :=
  (st.map Prod.fst).filter (fun p => listStarts (dir ++ "/").data p.data)

/-! ## Artifact validation -/

/-- The structural MP3 check shared by `verify_mp3_file` and
`verify_mp3_storage`: at least 128 bytes, and the first bytes are an ID3 tag
(0x49 0x44 0x33) or an MPEG sync frame (0xFF followed by a byte whose three
top bits are set). -/
def verifyMp3Bytes (content : List Nat) : Bool :=
  if content.length < 128 then false
  else
    let header := content.take 10
    if header.take 3 == [73, 68, 51] then true
    else
      match header with
      | b0 :: b1 :: _ => b0 == 255 && Nat.land b1 224 == 224
      | _ => false

/-- `verify_mp3_storage` (app/storage/storage_ops.py 32-68): returns false
when the path is absent, otherwise reads the blob back and applies the
structural check; every read failure is caught and reported as false, so the
function is total. -/
def verifyMp3Storage (st : Store) (p : String) : Bool :=
  match findS st p with
  | none => false
  | some content => verifyMp3Bytes content

/-- `is_chapter_completed_storage` (app/storage/storage_ops.py 71-104):
derive the final-artifact path from the chapter number and title, then
require existence and validity. -/
def isChapterCompletedStorage (st : Store) (bookDir : String) (chapterNum : Nat)
    (chapterTitle : String) : Bool :=
  let relativePath := bookDir ++ "/" ++ getChapterFinalName chapterNum chapterTitle
  if !existsS st relativePath then false
  else if !verifyMp3Storage st relativePath then false
  else true

/-! ## Cleanup and deletion -/

/-- The per-file deletion condition of `cleanup_parts_storage`
(app/storage/storage_ops.py 126): the path contains "part_" and ends with
".mp3".  The chapter number is not consulted. -/
def cleanupCond (p : String) : Bool :=
  containsSeg "part_".data p.data && pyEndsWith p ".mp3"

/-- One iteration of the deletion loop of `cleanup_parts_storage`
(app/storage/storage_ops.py 125-131). -/
def cleanupStep (acc : Store × Nat) (f : String) : Store × Nat :=
  if cleanupCond f then (eraseS acc.1 f, acc.2 + 1) else acc

/-- `cleanup_parts_storage` (app/storage/storage_ops.py 107-139): list the
parts directory and delete every file satisfying the condition, counting the
deletions; per-file failures are swallowed. -/
def cleanupPartsStorage (st : Store) (partsDir : String) : Store × Nat :=
  let files := listFilesS st partsDir
  files.foldl cleanupStep (st, 0)

/-- The paths the cleanup phase removes: below the parts directory and
matching the deletion condition. -/
def partBlobMatch (partsDir : String) (p : String) : Bool :=
  listStarts (partsDir ++ "/").data p.data && cleanupCond p

/-- `LocalStorageAdapter.delete` (app/storage/__init__.py 134-138): unlink
only when the path exists, so the call always returns normally. -/
def localDelete (st : Store) (p : String) : Store :=
  if existsS st p then eraseS st p else st

/-- `GCSStorageAdapter.delete` (app/storage/__init__.py 209-212) forwards to
the client's `blob.delete()` without catching anything.  Modelled from the
Google Cloud Storage client contract: deleting an object that does not exist
raises NotFound; deleting an existing object removes it. -/
def gcsDelete (st : Store) (p : String) : Except Unit Store :=
  match findS st p with
  | none => Except.error ()
  | some _ => Except.ok (eraseS st p)

/-! ## Merger

`AudioMerger.merge_chapter_parts` (app/services/merger.py 54-154).  The
external concatenation tool is an oracle `ffmpeg : List (List Nat) → Option
(List Nat)` mapping the ordered list of materialized part contents to the
produced output (`none` models a non-zero exit status).  The result records
whether the subprocess was reached, which the source reaches on every path
on which all parts materialize. -/

inductive MergeRes where
  | noParts : MergeRes
  | failed (st : Store) (toolRan : Bool) : MergeRes
  | ok (st : Store) (finalPath : String) (toolRan : Bool) : MergeRes
  deriving Repr, DecidableEq

def MergeRes.toolWasRun : MergeRes → Bool
  | .noParts => false
  | .failed _ b => b
  | .ok _ _ b => b

/-- The final storage path built in `merge_chapter_parts`
(app/services/merger.py 130-136): the file name from
`get_chapter_final_path`, under the book subdirectory when one is set. -/
def mergeFinalPath (bookSubdir : String) (chapterNum : Nat) (chapterTitle : String) : String :=
  let finalFilename := getChapterFinalName chapterNum chapterTitle
  if bookSubdir ≠ "" then bookSubdir ++ "/" ++ finalFilename else finalFilename

/-- Materialize every part in order (`get_temp_local_path` per part,
app/storage/storage_ops.py 142-177): an absent part yields `none`, which the
merger turns into a MergerError before the tool runs. -/
def readAllParts (st : Store) : List String → Option (List (List Nat))
  | [] => some []
  | p :: rest =>
    match findS st p, readAllParts st rest with
    | some b, some bs => some (b :: bs)
    | _, _ => none

/-- `merge_chapter_parts`: empty input returns None; otherwise sort the part
paths, materialize them, run ffmpeg over the concat manifest, validate the
local result, and publish it to the final storage path with a whole-blob
write. -/
def mergeChapterParts (bookSubdir : String) (st : Store) (chapterNum : Nat)
    (chapterTitle : String) (partFiles : List String)
    (ffmpeg : List (List Nat) → Option (List Nat)) : MergeRes :=
  if partFiles = [] then .noParts
  else
    let sortedParts := partFiles.insertionSort (· ≤ ·)
    match readAllParts st sortedParts with
    | none => .failed st false
    | some contents =>
      match ffmpeg contents with
      | none => .failed st true
      | some merged =>
        if !verifyMp3Bytes merged then .failed st true
        else
          let storagePath := mergeFinalPath bookSubdir chapterNum chapterTitle
          .ok (writeS st storagePath merged) storagePath true

/-! ## Synthesis

`GoogleTTSService.synthesize_chapter` (app/services/tts.py 122-204).  The
text cleaning that produces the chunk list is the cleaner's job (modelled
separately below); here the chunk list is the loop's input, and the external
TTS call is an oracle `synth : Nat → Option (List Nat)` from the part number
to the audio bytes (`none` models a TTSError raised by `synthesize_text`). -/

def synthLoop (bookSubdir partsSubdir : String) (chapterNum : Nat) (chapterTitle : String)
    (total : Nat) (synth : Nat → Option (List Nat)) :
    Store → Nat → List String → List String → Except Store (Store × List String)
  | st, _, acc, [] => .ok (st, acc)
  | st, partNum, acc, _chunk :: rest =>
    let path := partStoragePath bookSubdir partsSubdir chapterNum partNum total chapterTitle
    if existsS st path && verifyMp3Storage st path then
      synthLoop bookSubdir partsSubdir chapterNum chapterTitle total synth
        st (partNum + 1) (acc ++ [path]) rest
    else
      match synth partNum with
      | none => .error st
      | some audio =>
        let st1 := writeS st path audio
        if verifyMp3Storage st1 path then
          synthLoop bookSubdir partsSubdir chapterNum chapterTitle total synth
            st1 (partNum + 1) (acc ++ [path]) rest
        else .error st1

/-- `synthesize_chapter`: an empty chunk list returns an empty part list with
no storage effect; otherwise synthesize the parts in order, reusing a part
that already exists and validates, aborting the chapter on the first
failure (an `Except.error` carries the store at the moment of the raise). -/
def synthesizeChapter (bookSubdir partsSubdir : String) (chapterNum : Nat)
    (chapterTitle : String) (chunks : List String) (synth : Nat → Option (List Nat))
    (st : Store) : Except Store (Store × List String) :=
  if chunks = [] then .ok (st, [])
  else synthLoop bookSubdir partsSubdir chapterNum chapterTitle chunks.length synth st 1 [] chunks

/-! ## The per-chapter pipeline -/

/-- The parts directory path computed in `_process_single_chapter`
(app/main.py 211-213). -/
def partsDirPath (bookSubdir partsSubdir : String) : String :=
  if bookSubdir ≠ "" then bookSubdir ++ "/" ++ partsSubdir else partsSubdir

/-- The best-effort deletion loop of the exception handler in
`_process_single_chapter` (app/main.py 226-232), applied to whatever list
the local variable `parts` holds when the exception is caught. -/
def deletePartsBestEffort (st : Store) (parts : List String) : Store :=
  parts.foldl (fun s p => if existsS s p then localDelete s p else s) st

/-- `AudiobookPipeline._process_single_chapter` (app/main.py 155-234).
Returns the final store and the boolean result.  When `synthesize_chapter`
raises, the local `parts` variable is still the empty list it was
initialized to on line 182, so the handler's deletion loop has nothing to
delete; when the merger raises, `parts` holds the full part list. -/
def processSingleChapter (forceReprocess cleanupAfterMerge : Bool)
    (bookSubdir partsSubdir : String) (st : Store) (chapterNum : Nat)
    (chapterTitle : String) (chunks : List String) (synth : Nat → Option (List Nat))
    (ffmpeg : List (List Nat) → Option (List Nat)) : Store × Bool :=
  if isChapterCompletedStorage st bookSubdir chapterNum chapterTitle && !forceReprocess then
    (st, true)
  else
    match synthesizeChapter bookSubdir partsSubdir chapterNum chapterTitle chunks synth st with
    | .error st1 => (deletePartsBestEffort st1 [], false)
    | .ok (st1, parts) =>
      if parts = [] then (st1, false)
      else
        match mergeChapterParts bookSubdir st1 chapterNum chapterTitle parts ffmpeg with
        | .noParts => (st1, false)
        | .failed st2 _ => (deletePartsBestEffort st2 parts, false)
        | .ok st2 _ _ =>
          let st3 :=
            if cleanupAfterMerge then
              (cleanupPartsStorage st2 (partsDirPath bookSubdir partsSubdir)).1
            else st2
          (st3, true)

/-- The result collection of `process_book` (app/main.py 121-131): a
successful future appends the chapter to the completed list, anything else
appends it to the failed list. -/
def recordOutcome (success : Bool) (chapterNum : Nat)
    (completed failed : List Nat) : List Nat × List Nat :=
  if success then (completed ++ [chapterNum], failed)
  else (completed, failed ++ [chapterNum])

/-! ## Text chunking (TextCleaner, app/services/cleaner.py)

Strings are `List Char`; `byteLen` is the length of the UTF-8 encoding
(Python `len(s.encode('utf-8'))`). -/

def charBytes (c : Char) : Nat :=
  if c.toNat < 0x80 then 1
  else if c.toNat < 0x800 then 2
  else if c.toNat < 0x10000 then 3
  else 4

def byteLen : List Char → Nat
  | [] => 0
  | c :: rest => charBytes c + byteLen rest

/-- Does the list start with a character satisfying `p`? -/
def headIs (p : Char → Bool) (l : List Char) : Bool :=
  match l.head? with
  | some c => p c
  | none => false

/-- Python `str.split()` with no argument: maximal runs of non-whitespace,
empties dropped.  The scanners below recurse on a fuel argument so that the
recursion is structural; every step consumes at least one character, so
calling with the input's length as fuel (as every wrapper does) never
reaches the fuel-exhausted fallback. -/
def pySplitWordsGo : Nat → List Char → List (List Char)
  | _, [] => []
  | 0, _ :: _ => []
  | fuel + 1, c :: cs =>
    if isPySpace c then pySplitWordsGo fuel cs
    else
      (c :: cs.takeWhile (fun d => !isPySpace d)) ::
        pySplitWordsGo fuel (cs.dropWhile (fun d => !isPySpace d))

def pySplitWords (l : List Char) : List (List Char) :=
  pySplitWordsGo l.length l

/-- The accumulation loop of `TextCleaner._split_by_words`
(app/services/cleaner.py 319-335). -/
def sbwLoop (maxBytes : Nat) : List (List Char) → List Char → List (List Char) →
    List (List Char)
  | [], current, parts =>
    if current = [] then parts else parts ++ [pyStrip current]
  | w :: ws, current, parts =>
    let test := if current = [] then w else current ++ ' ' :: w
    if byteLen test > maxBytes then
      if current = [] then sbwLoop maxBytes ws w parts
      else sbwLoop maxBytes ws w (parts ++ [pyStrip current])
    else sbwLoop maxBytes ws test parts

/-- `TextCleaner._split_by_words` (app/services/cleaner.py 308-335). -/
def splitByWords (text : List Char) (maxBytes : Nat) : List (List Char) :=
  sbwLoop maxBytes (pySplitWords text) [] []

/-- Python `re.split(r'([,;:]\s*)', s)`: the pieces between matches
interleaved with the captured separators (a punctuation character plus the
following whitespace run); pieces may be empty. -/
def isClausePunct (c : Char) : Bool :=
  c = ',' || c = ';' || c = ':'

def reSplitClauseGo : Nat → List Char → List (List Char)
  | 0, l => [l]
  | fuel + 1, l =>
    let piece := l.takeWhile (fun c => !isClausePunct c)
    match l.dropWhile (fun c => !isClausePunct c) with
    | [] => [piece]
    | c :: rest2 =>
      piece :: (c :: rest2.takeWhile isPySpace) ::
        reSplitClauseGo fuel (rest2.dropWhile isPySpace)

def reSplitClause (l : List Char) : List (List Char) :=
  reSplitClauseGo l.length l

/-- The accumulation loop of `TextCleaner._split_long_sentence`
(app/services/cleaner.py 283-306). -/
def slsLoop (maxBytes : Nat) : List (List Char) → List Char → List (List Char) →
    List (List Char)
  | [], current, parts =>
    if current = [] then parts else parts ++ [pyStrip current]
  | sub :: rest, current, parts =>
    if sub = [] then slsLoop maxBytes rest current parts
    else
      let test := current ++ sub
      if byteLen test > maxBytes then
        let parts1 := if current = [] then parts else parts ++ [pyStrip current]
        if byteLen sub > maxBytes then
          let wordParts := splitByWords sub maxBytes
          slsLoop maxBytes rest (wordParts.getLastD []) (parts1 ++ wordParts.dropLast)
        else slsLoop maxBytes rest sub parts1
      else slsLoop maxBytes rest test parts

/-- `TextCleaner._split_long_sentence` (app/services/cleaner.py 267-306). -/
def splitLongSentence (sentence : List Char) (maxBytes : Nat) : List (List Char) :=
  slsLoop maxBytes (reSplitClause sentence) [] []

/-! Abbreviation protection (`TextCleaner._split_sentences`, app/services/
cleaner.py 239-254).  Each substitution is a left-to-right scanner that, at
each position, either rewrites the leftmost match and resumes after it, or
emits one character and moves on — the semantics of `re.sub`. -/

def dotTok : List Char := ['<', 'D', 'O', 'T', '>']

/-- Substitution 1: `(\s)г\.(\s)` -> `\1г<DOT>\2`.  The scanner tries the
leftmost match at the head; on a match it emits the replacement and resumes
after the matched span, otherwise it emits one character and moves on. -/
def protYearGo : Nat → List Char → List Char
  | _, [] => []
  | 0, l => l
  | fuel + 1, a :: rest =>
    if isPySpace a && headIs (fun c => c = 'г') rest &&
        headIs (fun c => c = '.') (rest.drop 1) && headIs isPySpace (rest.drop 2) then
      a :: 'г' :: (dotTok ++ (rest.drop 2).take 1 ++ protYearGo fuel (rest.drop 3))
    else a :: protYearGo fuel rest

def protYear (l : List Char) : List Char := protYearGo l.length l

/-- Substitution 2: `(\s)гг\.(\s)` -> `\1гг<DOT>\2`. -/
def protYearsGo : Nat → List Char → List Char
  | _, [] => []
  | 0, l => l
  | fuel + 1, a :: rest =>
    if isPySpace a && headIs (fun c => c = 'г') rest &&
        headIs (fun c => c = 'г') (rest.drop 1) &&
        headIs (fun c => c = '.') (rest.drop 2) && headIs isPySpace (rest.drop 3) then
      a :: 'г' :: 'г' :: (dotTok ++ (rest.drop 3).take 1 ++ protYearsGo fuel (rest.drop 4))
    else a :: protYearsGo fuel rest

def protYears (l : List Char) : List Char := protYearsGo l.length l

/-- Substitutions 3-6 share the shape `(\s)X\.(\s*)Y\.` -> `\1X<DOT>\2Y<DOT>`
with `(X, Y)` in `(т, е)`, `(т, д)`, `(т, п)`, `(и, о)`.  The greedy `\s*`
never needs backtracking: a shorter whitespace run would put a whitespace
character where `Y` is required. -/
def protPairGo (x y : Char) : Nat → List Char → List Char
  | _, [] => []
  | 0, l => l
  | fuel + 1, a :: rest =>
    if isPySpace a && headIs (fun c => c = x) rest &&
        headIs (fun c => c = '.') (rest.drop 1) &&
        headIs (fun c => c = y) ((rest.drop 2).dropWhile isPySpace) &&
        headIs (fun c => c = '.') (((rest.drop 2).dropWhile isPySpace).drop 1) then
      a :: x :: (dotTok ++ (rest.drop 2).takeWhile isPySpace ++
        y :: (dotTok ++ protPairGo x y fuel (((rest.drop 2).dropWhile isPySpace).drop 2)))
    else a :: protPairGo x y fuel rest

def protPair (x y : Char) (l : List Char) : List Char := protPairGo x y l.length l

/-- Substitutions 7, 8 and 10 share the shape `(\s)X\.(\s)` -> `\1X<DOT>\2`
with `X` in `с`, `р`, `д`. -/
def protSingleGo (x : Char) : Nat → List Char → List Char
  | _, [] => []
  | 0, l => l
  | fuel + 1, a :: rest =>
    if isPySpace a && headIs (fun c => c = x) rest &&
        headIs (fun c => c = '.') (rest.drop 1) && headIs isPySpace (rest.drop 2) then
      a :: x :: (dotTok ++ (rest.drop 2).take 1 ++ protSingleGo x fuel (rest.drop 3))
    else a :: protSingleGo x fuel rest

def protSingle (x : Char) (l : List Char) : List Char := protSingleGo x l.length l

/-- Substitution 9: `(\s)ул\.(\s)` -> `\1ул<DOT>\2`. -/
def protStreetGo : Nat → List Char → List Char
  | _, [] => []
  | 0, l => l
  | fuel + 1, a :: rest =>
    if isPySpace a && headIs (fun c => c = 'у') rest &&
        headIs (fun c => c = 'л') (rest.drop 1) &&
        headIs (fun c => c = '.') (rest.drop 2) && headIs isPySpace (rest.drop 3) then
      a :: 'у' :: 'л' :: (dotTok ++ (rest.drop 3).take 1 ++ protStreetGo fuel (rest.drop 4))
    else a :: protStreetGo fuel rest

def protStreet (l : List Char) : List Char := protStreetGo l.length l

/-- The character class `[А-Я]` (U+0410 to U+042F). -/
def isCyrCap (c : Char) : Bool :=
  'А' ≤ c && c ≤ 'Я'

/-- Substitution 11: `([А-Я])\.(\s*)([А-Я])\.` -> `\1<DOT>\2\3<DOT>`. -/
def protInitialsGo : Nat → List Char → List Char
  | _, [] => []
  | 0, l => l
  | fuel + 1, a :: rest =>
    if isCyrCap a && headIs (fun c => c = '.') rest &&
        headIs isCyrCap ((rest.drop 1).dropWhile isPySpace) &&
        headIs (fun c => c = '.') (((rest.drop 1).dropWhile isPySpace).drop 1) then
      a :: (dotTok ++ (rest.drop 1).takeWhile isPySpace ++
        ((rest.drop 1).dropWhile isPySpace).take 1 ++
        (dotTok ++ protInitialsGo fuel (((rest.drop 1).dropWhile isPySpace).drop 2)))
    else a :: protInitialsGo fuel rest

def protInitials (l : List Char) : List Char := protInitialsGo l.length l

/-- All eleven protections, in source order. -/
def protectAbbrevs (l : List Char) : List Char :=
  let s1 := protYear l
  let s2 := protYears s1
  let s3 := protPair 'т' 'е' s2
  let s4 := protPair 'т' 'д' s3
  let s5 := protPair 'т' 'п' s4
  let s6 := protPair 'и' 'о' s5
  let s7 := protSingle 'с' s6
  let s8 := protSingle 'р' s7
  let s9 := protStreet s8
  let s10 := protSingle 'д' s9
  protInitials s10

/-- `s.replace('<DOT>', '.')`. -/
def dotRestore : List Char → List Char
  | '<' :: 'D' :: 'O' :: 'T' :: '>' :: rest => '.' :: dotRestore rest
  | c :: rest => c :: dotRestore rest
  | [] => []

def isSentEnd (c : Char) : Bool :=
  c = '.' || c = '!' || c = '?'

/-- `re.split(r'(?<=[.!?])\s+', s)`: cut after a sentence-ending character
when whitespace follows, consuming the whitespace run. -/
def sentSplitAuxGo : Nat → List Char → List Char → List (List Char)
  | _, acc, [] => [acc.reverse]
  | 0, acc, l => [acc.reverse ++ l]
  | fuel + 1, acc, c :: cs =>
    if isSentEnd c && headIs isPySpace cs then
      (c :: acc).reverse :: sentSplitAuxGo fuel [] (cs.dropWhile isPySpace)
    else sentSplitAuxGo fuel (c :: acc) cs

def sentSplitAux (acc : List Char) (l : List Char) : List (List Char) :=
  sentSplitAuxGo l.length acc l

/-- `TextCleaner._split_sentences` (app/services/cleaner.py 224-265):
protect the abbreviations, split on sentence ends, restore the protected
dots, strip each sentence and drop the empty ones. -/
def splitSentences (text : List Char) : List (List Char) :=
  let sentences := sentSplitAux [] (protectAbbrevs text)
  ((sentences.map dotRestore).map pyStrip).filter (fun s => s ≠ [])

/-- The accumulation loop of `TextCleaner.split_into_chunks`
(app/services/cleaner.py 189-219). -/
def sicLoop (maxBytes : Nat) : List (List Char) → List Char → List (List Char) →
    List (List Char)
  | [], current, chunks =>
    if current = [] then chunks else chunks ++ [pyStrip current]
  | s :: rest, current, chunks =>
    let sentenceBytes := byteLen s
    let currentBytes := byteLen current
    if currentBytes + sentenceBytes + 1 > maxBytes then
      let chunks1 := if current = [] then chunks else chunks ++ [pyStrip current]
      if sentenceBytes > maxBytes then
        let subChunks := splitLongSentence s maxBytes
        sicLoop maxBytes rest (subChunks.getLastD []) (chunks1 ++ subChunks.dropLast)
      else sicLoop maxBytes rest s chunks1
    else
      sicLoop maxBytes rest (if current = [] then s else current ++ ' ' :: s) chunks

/-- `TextCleaner.split_into_chunks` (app/services/cleaner.py 170-222). -/
def splitIntoChunks (text : List Char) (maxBytes : Nat) : List (List Char) :=
  if text = [] then []
  else sicLoop maxBytes (splitSentences text) [] []

/-- `TTSConfig.max_chunk_bytes` (app/core/config.py 18). -/
def maxChunkBytes : Nat := 4800

/-- The size-violation condition of `GoogleTTSService.synthesize_text`
(app/services/tts.py 100-103): the call raises a TTSError when the UTF-8
length of the chunk exceeds 5000 bytes. -/
def synthTextTooLarge (text : List Char) : Bool :=
  byteLen text > 5000

/-! ## Helper lemmas -/

/-- Collapsing the classes `ws` and `sp` in two passes equals collapsing
their union in one pass, provided the underscore emitted by the first pass
belongs to `sp` and not to `ws`.  The three conjuncts track the three
reachable scanner-state combinations. -/
theorem collapseTwoPass (ws sp : Char → Bool) (hws : ws '_' = false)
    (hsp : sp '_' = true) (l : List Char) :
    collapseRuns sp (collapseRuns ws l) = collapseRuns (fun c => ws c || sp c) l ∧
    skipRun sp (collapseRuns ws l) = skipRun (fun c => ws c || sp c) l ∧
    skipRun sp (skipRun ws l) = skipRun (fun c => ws c || sp c) l := by
  induction l with
  | nil => simp [collapseRuns, skipRun]
  | cons c cs ih =>
    obtain ⟨ih1, ih2, ih3⟩ := ih
    by_cases hw : ws c <;> by_cases hs : sp c <;>
      simp [collapseRuns, skipRun, hw, hs, hws, hsp, ih1, ih2, ih3]

/-- A store is well formed when no path occurs twice; every store reachable
through the adapters from an empty one is. -/
abbrev WfStore (st : Store) : Prop :=
  (st.map Prod.fst).Nodup

theorem findS_eq_none_of_not_mem (st : Store) (p : String)
    (h : p ∉ st.map Prod.fst) : findS st p = none := by
  induction st with
  | nil => rfl
  | cons e rest ih =>
    obtain ⟨q, b⟩ := e
    simp only [List.map_cons, List.mem_cons, not_or] at h
    simp only [findS, if_neg (fun hq : q = p => h.1 hq.symm)]
    exact ih h.2

theorem findS_eraseS_self (st : Store) (p : String) (hwf : WfStore st) :
    findS (eraseS st p) p = none := by
  induction st with
  | nil => rfl
  | cons e rest ih =>
    obtain ⟨q, b⟩ := e
    simp only [WfStore, List.map_cons, List.nodup_cons] at hwf
    by_cases hq : q = p
    · simp only [eraseS, if_pos hq]
      subst hq
      exact findS_eq_none_of_not_mem rest q hwf.1
    · simp only [eraseS, if_neg hq, findS, if_neg hq]
      exact ih hwf.2

theorem findS_eraseS_ne (st : Store) (p q : String) (h : q ≠ p) :
    findS (eraseS st p) q = findS st q := by
  induction st with
  | nil => rfl
  | cons e rest ih =>
    obtain ⟨r, b⟩ := e
    by_cases hr : r = p
    · subst hr
      simp [eraseS, findS, Ne.symm h]
    · simp only [eraseS, if_neg hr, findS]
      by_cases hq : r = q
      · simp [hq]
      · simp [hq, ih]

theorem eraseS_of_findS_none (st : Store) (p : String) (h : findS st p = none) :
    eraseS st p = st := by
  induction st with
  | nil => rfl
  | cons e rest ih =>
    obtain ⟨q, b⟩ := e
    by_cases hq : q = p
    · simp [findS, hq] at h
    · simp only [findS, if_neg hq] at h
      simp [eraseS, hq, ih h]

theorem mem_keys_eraseS (st : Store) (p r : String)
    (h : r ∈ (eraseS st p).map Prod.fst) : r ∈ st.map Prod.fst := by
  induction st with
  | nil => exact h
  | cons e rest ih =>
    obtain ⟨q, b⟩ := e
    by_cases hq : q = p
    · simp only [eraseS, if_pos hq] at h
      simp [h]
    · simp only [eraseS, if_neg hq, List.map_cons, List.mem_cons] at h ⊢
      rcases h with h | h
      · exact Or.inl h
      · exact Or.inr (ih h)

theorem eraseS_wf (st : Store) (p : String) (hwf : WfStore st) :
    WfStore (eraseS st p) := by
  induction st with
  | nil => exact hwf
  | cons e rest ih =>
    obtain ⟨q, b⟩ := e
    simp only [WfStore, List.map_cons, List.nodup_cons] at hwf
    by_cases hq : q = p
    · simpa only [eraseS, if_pos hq] using hwf.2
    · simp only [WfStore, eraseS, if_neg hq, List.map_cons, List.nodup_cons]
      exact ⟨fun hm => hwf.1 (mem_keys_eraseS rest p q hm), ih hwf.2⟩

theorem findS_some_mem (st : Store) (p : String) (b : List Nat)
    (h : findS st p = some b) : p ∈ st.map Prod.fst := by
  induction st with
  | nil => exact absurd h (by simp [findS])
  | cons e rest ih =>
    obtain ⟨q, c⟩ := e
    by_cases hq : q = p
    · simp [hq]
    · simp only [findS, if_neg hq] at h
      simp [ih h]

theorem findS_none_eraseS (st : Store) (p q : String) (h : findS st q = none) :
    findS (eraseS st p) q = none := by
  by_cases hpq : q = p
  · subst hpq
    rw [eraseS_of_findS_none st q h]
    exact h
  · rw [findS_eraseS_ne st p q hpq]
    exact h

theorem cleanupFold_unchanged (files : List String) (s : Store) (n : Nat) (q : String)
    (h : q ∉ files ∨ cleanupCond q = false) :
    findS (files.foldl cleanupStep (s, n)).1 q = findS s q := by
  induction files generalizing s n with
  | nil => rfl
  | cons f fs ih =>
    have hq : q ∉ fs ∨ cleanupCond q = false := by
      rcases h with h | h
      · exact Or.inl (fun hm => h (List.mem_cons_of_mem _ hm))
      · exact Or.inr h
    simp only [List.foldl_cons, cleanupStep]
    by_cases hc : cleanupCond f
    · have hne : q ≠ f := by
        rcases h with h | h
        · exact fun he => h (he ▸ List.mem_cons_self f fs)
        · exact fun he => by rw [he] at h; rw [h] at hc; exact absurd hc (by simp)
      simp only [if_pos hc]
      rw [ih (s := eraseS s f) (n := n + 1) hq, findS_eraseS_ne s f q hne]
    · simp only [if_neg hc]
      exact ih s n hq

theorem cleanupFold_none (files : List String) (s : Store) (n : Nat) (q : String)
    (h : findS s q = none) :
    findS (files.foldl cleanupStep (s, n)).1 q = none := by
  induction files generalizing s n with
  | nil => exact h
  | cons f fs ih =>
    simp only [List.foldl_cons, cleanupStep]
    by_cases hc : cleanupCond f
    · simp only [if_pos hc]
      exact ih (eraseS s f) (n + 1) (findS_none_eraseS s f q h)
    · simp only [if_neg hc]
      exact ih s n h

theorem cleanupFold_erases (files : List String) (s : Store) (n : Nat) (q : String)
    (hwf : WfStore s) (hmem : q ∈ files) (hcond : cleanupCond q = true) :
    findS (files.foldl cleanupStep (s, n)).1 q = none := by
  induction files generalizing s n with
  | nil => exact absurd hmem (List.not_mem_nil q)
  | cons f fs ih =>
    simp only [List.foldl_cons, cleanupStep]
    by_cases hqf : q = f
    · subst hqf
      simp only [if_pos hcond]
      exact cleanupFold_none fs (eraseS s q) (n + 1) q (findS_eraseS_self s q hwf)
    · have hmem2 : q ∈ fs := by
        rcases List.mem_cons.mp hmem with h | h
        · exact absurd h hqf
        · exact h
      by_cases hc : cleanupCond f
      · simp only [if_pos hc]
        exact ih (eraseS s f) (n + 1) (eraseS_wf s f hwf) hmem2
      · simp only [if_neg hc]
        exact ih s n hwf hmem2

/-! ## Claims -/

/-- Claim C5 counterexample: deleting an absent path on the remote (GCS)
variant is an error — the adapter forwards the client call, which raises
NotFound — so delete is not idempotent for both backend variants. -/
theorem gcsDeleteAbsentRaises : gcsDelete [] "x" = Except.error () := rfl

/-- Claim C5 amended: the local variant's delete is idempotent and deleting
an absent path returns normally with the store unchanged; the remote (GCS)
variant's delete raises the client's NotFound error exactly when the path is
absent. -/
theorem deleteAdapterSemantics (st : Store) (p : String) (hwf : WfStore st) :
    localDelete (localDelete st p) p = localDelete st p ∧
    (findS st p = none → localDelete st p = st) ∧
    (gcsDelete st p = Except.error () ↔ findS st p = none) := by
  refine ⟨?_, ?_, ?_⟩
  · by_cases h : existsS st p
    · have h2 : existsS (eraseS st p) p = false := by
        simp [existsS, findS_eraseS_self st p hwf]
      simp [localDelete, h, h2]
    · simp [localDelete, h]
  · intro h
    simp [localDelete, existsS, h]
  · cases hf : findS st p <;> simp [gcsDelete, hf]

/-- Claim C5 amended, witness at a one-entry store. -/
theorem deleteAdapterSemanticsWitness :
    localDelete (localDelete [("a", [1])] "a") "a" = localDelete [("a", [1])] "a" ∧
    localDelete [("a", [1])] "b" = [("a", [1])] ∧
    (gcsDelete [("a", [1])] "b" = Except.error () ↔ findS [("a", [1])] "b" = none) := by
  have h1 := deleteAdapterSemantics [("a", [1])] "a" (by decide)
  have h2 := deleteAdapterSemantics [("a", [1])] "b" (by decide)
  exact ⟨h1.1, h2.2.1 rfl, h2.2.2⟩

/-- Claim C6: the completion check is false when the final artifact path is
absent, and when the path is present it equals the structural validator's
verdict on the stored content (so an invalid artifact yields false rather
than an error, and the chapter is reprocessed). -/
theorem completionCheckSemantics (st : Store) (bookDir : String) (n : Nat) (t : String) :
    (findS st (bookDir ++ "/" ++ getChapterFinalName n t) = none →
      isChapterCompletedStorage st bookDir n t = false) ∧
    ∀ content, findS st (bookDir ++ "/" ++ getChapterFinalName n t) = some content →
      isChapterCompletedStorage st bookDir n t = verifyMp3Bytes content := by
  constructor
  · intro h
    simp [isChapterCompletedStorage, existsS, h]
  · intro content h
    simp only [isChapterCompletedStorage, existsS, verifyMp3Storage, h, Option.isSome_some,
      Bool.not_true, Bool.false_eq_true, if_false]
    cases verifyMp3Bytes content <;> simp

/-- Claim C6, witness: a corrupted artifact at the expected path yields
false, and an absent artifact yields false. -/
theorem completionCheckSemanticsWitness :
    isChapterCompletedStorage [("bk/chapter_01_t.mp3", [7])] "bk" 1 "t" = false ∧
    isChapterCompletedStorage [] "bk" 1 "t" = false := by
  constructor
  · have h := (completionCheckSemantics [("bk/chapter_01_t.mp3", [7])]
      "bk" 1 "t").2 [7] (by decide)
    rw [h]
    decide
  · exact (completionCheckSemantics [] "bk" 1 "t").1 rfl

/-- Claim C7: the safe-title derivation is reproduced exactly at all three
sites — the sanitization inside get_chapter_final_path, the TTS part-naming
sanitizer and the merger sanitizer compute identical strings for every
title — and the common function matches the specified pipeline
(transliterate, lowercase, strip to the allowed set, collapse whitespace
and separator runs to single underscores, truncate to 50, strip outer
separators, empty becomes "untitled"). -/
theorem sanitizersAgreeAndMatchSpec (t : String) :
    ttsSanitizeFilename t = mergerSanitizeFilename t ∧
    ttsSanitizeFilename t = atomicSafeTitle t ∧
    ttsSanitizeFilename t = specSafeTitle t := by
  refine ⟨rfl, rfl, ?_⟩
  simp only [ttsSanitizeFilename, specSafeTitle]
  rw [(collapseTwoPass isPySpace isSepChar (by decide) (by decide) _).1]

/-- Claim C8: for chapter 5 with title "Глава пятая" and 3 parts, the final
artifact file name is chapter_05_glava_pyataya.mp3 and part 1 is stored as
parts/chapter_05_part_001_of_003_glava_pyataya.mp3 under the parts
directory. -/
theorem chapterFiveNaming :
    getChapterFinalName 5 "Глава пятая" = "chapter_05_glava_pyataya.mp3" ∧
    partStoragePath "" "parts" 5 1 3 "Глава пятая" =
      "parts/chapter_05_part_001_of_003_glava_pyataya.mp3" := by
  constructor <;> rfl

/-- A minimal byte blob accepted by the structural MP3 validator: an ID3
header followed by padding up to the 128-byte minimum. -/
def sampleMp3 : List Nat := [73, 68, 51] ++ List.replicate 125 0

/-- Claim C4 counterexample: the cleanup that runs after chapter 2's merge
deletes chapter 1's in-progress part blob as well, because the deletion
condition never consults the chapter number. -/
theorem cleanupDeletesSiblingChapterPart :
    findS (cleanupPartsStorage
      [("parts/chapter_01_part_001_of_002_a.mp3", [7]),
       ("parts/chapter_02_part_001_of_001_b.mp3", [7])] "parts").1
      "parts/chapter_01_part_001_of_002_a.mp3" = none := by
  decide

/-- Claim C4 amended: the cleanup phase deletes exactly the blobs below the
parts directory whose names contain "part_" and end in ".mp3" — every
chapter's, not only the chapter being cleaned up — and leaves every other
path unchanged. -/
theorem cleanupSemantics (st : Store) (dir : String) (hwf : WfStore st) :
    (∀ p, partBlobMatch dir p = true → findS (cleanupPartsStorage st dir).1 p = none) ∧
    (∀ p, partBlobMatch dir p = false → findS (cleanupPartsStorage st dir).1 p = findS st p) := by
  constructor
  · intro p hp
    simp only [partBlobMatch, Bool.and_eq_true] at hp
    cases hf : findS st p with
    | none =>
      simpa [cleanupPartsStorage] using cleanupFold_none (listFilesS st dir) st 0 p hf
    | some b =>
      have hmem : p ∈ listFilesS st dir := by
        simp only [listFilesS, List.mem_filter]
        exact ⟨findS_some_mem st p b hf, hp.1⟩
      simpa [cleanupPartsStorage] using
        cleanupFold_erases (listFilesS st dir) st 0 p hwf hmem hp.2
  · intro p hp
    have hd : p ∉ listFilesS st dir ∨ cleanupCond p = false := by
      by_cases hc : cleanupCond p
      · left
        intro hmem
        simp only [listFilesS, List.mem_filter] at hmem
        unfold partBlobMatch at hp
        rw [hc, Bool.and_true] at hp
        rw [hp] at hmem
        exact absurd hmem.2 (by decide)
      · right
        simpa using hc
    simpa [cleanupPartsStorage] using cleanupFold_unchanged (listFilesS st dir) st 0 p hd

/-- Claim C4 amended, witness: a matching part is removed and an unrelated
path survives with its content. -/
theorem cleanupSemanticsWitness :
    findS (cleanupPartsStorage
      [("parts/chapter_02_part_001_of_001_b.mp3", [7]), ("chapter_01_a.mp3", [9])]
      "parts").1 "parts/chapter_02_part_001_of_001_b.mp3" = none ∧
    findS (cleanupPartsStorage
      [("parts/chapter_02_part_001_of_001_b.mp3", [7]), ("chapter_01_a.mp3", [9])]
      "parts").1 "chapter_01_a.mp3" =
      findS [("parts/chapter_02_part_001_of_001_b.mp3", [7]), ("chapter_01_a.mp3", [9])]
        "chapter_01_a.mp3" := by
  have h := cleanupSemantics
    [("parts/chapter_02_part_001_of_001_b.mp3", [7]), ("chapter_01_a.mp3", [9])]
    "parts" (by decide)
  exact ⟨h.1 _ (by decide), h.2 _ (by decide)⟩

set_option maxRecDepth 4000 in
/-- Claim C3 counterexample: called with exactly one part, the merger still
invokes the external tool and publishes the tool's output, not the raw part
bytes: the result records the ffmpeg invocation and the final blob is the
oracle's output. -/
theorem mergeSinglePartRunsTool :
    mergeChapterParts "" [("p1", [7])] 1 "t" ["p1"] (fun _ => some sampleMp3) =
      MergeRes.ok [("p1", [7]), ("chapter_01_t.mp3", sampleMp3)] "chapter_01_t.mp3" true := by
  decide

/-- Claim C3 amended: with exactly one part present in storage, the merger
materializes it, always reaches the external tool, and — when the tool
output validates — publishes that output to the final path via the storage
write; there is no direct-publish shortcut for N = 1. -/
theorem mergeSinglePartSemantics (bookSub : String) (st : Store) (n : Nat) (t : String)
    (p : String) (b : List Nat) (ffmpeg : List (List Nat) → Option (List Nat))
    (hb : findS st p = some b) :
    (mergeChapterParts bookSub st n t [p] ffmpeg).toolWasRun = true ∧
    ∀ m, ffmpeg [b] = some m → verifyMp3Bytes m = true →
      mergeChapterParts bookSub st n t [p] ffmpeg =
        MergeRes.ok (writeS st (mergeFinalPath bookSub n t) m) (mergeFinalPath bookSub n t)
          true := by
  have hsort : List.insertionSort (fun a b => a ≤ b) [p] = [p] := rfl
  have hread : readAllParts st [p] = some [b] := by
    simp [readAllParts, hb]
  constructor
  · simp only [mergeChapterParts, if_neg (by simp : ¬([p] = [])), hsort, hread]
    cases hm : ffmpeg [b] with
    | none => rfl
    | some m =>
      by_cases hv : verifyMp3Bytes m <;> simp [hv, MergeRes.toolWasRun]
  · intro m hm hv
    simp [mergeChapterParts, hsort, hread, hm, hv]

set_option maxRecDepth 4000 in
/-- Claim C3 amended, witness at a one-part store with a tool oracle whose
output validates. -/
theorem mergeSinglePartSemanticsWitness :
    (mergeChapterParts "" [("p1", [7])] 1 "t" ["p1"] (fun _ => some sampleMp3)).toolWasRun
      = true ∧
    mergeChapterParts "" [("p1", [7])] 1 "t" ["p1"] (fun _ => some sampleMp3) =
      MergeRes.ok (writeS [("p1", [7])] (mergeFinalPath "" 1 "t") sampleMp3)
        (mergeFinalPath "" 1 "t") true := by
  have h := mergeSinglePartSemantics "" [("p1", [7])] 1 "t" "p1" [7]
    (fun _ => some sampleMp3) (by decide)
  exact ⟨h.1, h.2 sampleMp3 rfl (by decide)⟩

/-- Claim C9: the merger sorts the part list internally, so merging any
permutation of the part paths — reversed, shuffled — produces exactly the
same result (same final artifact bytes, same store) as ascending order. -/
theorem mergeOrderInvariance (bookSub : String) (st : Store) (n : Nat) (t : String)
    (ffmpeg : List (List Nat) → Option (List Nat)) (l l2 : List String)
    (hperm : l.Perm l2) :
    mergeChapterParts bookSub st n t l ffmpeg = mergeChapterParts bookSub st n t l2 ffmpeg := by
  have hsort : List.insertionSort (fun a b => a ≤ b) l =
      List.insertionSort (fun a b => a ≤ b) l2 := by
    apply List.eq_of_perm_of_sorted (r := fun a b : String => a ≤ b)
    · exact (List.perm_insertionSort _ l).trans
        (hperm.trans (List.perm_insertionSort _ l2).symm)
    · exact List.sorted_insertionSort _ l
    · exact List.sorted_insertionSort _ l2
  by_cases h1 : l = []
  · subst h1
    rw [hperm.symm.eq_nil]
  · have h2 : l2 ≠ [] := fun h => h1 (by rw [h] at hperm; exact hperm.eq_nil)
    simp only [mergeChapterParts, if_neg h1, if_neg h2, hsort]

/-- Claim C9, witness: merging a reversed two-part list equals merging it in
ascending order. -/
theorem mergeOrderInvarianceWitness :
    mergeChapterParts "" [("a", sampleMp3), ("b", sampleMp3)] 1 "t" ["b", "a"]
      (fun l => some l.flatten) =
    mergeChapterParts "" [("a", sampleMp3), ("b", sampleMp3)] 1 "t" ["a", "b"]
      (fun l => some l.flatten) :=
  mergeOrderInvariance "" [("a", sampleMp3), ("b", sampleMp3)] 1 "t"
    (fun l => some l.flatten) ["b", "a"] ["a", "b"] (by decide)

/-- Claim C1 counterexample: a chapter whose synthesis yields zero parts is
returned as a failure by the per-chapter pipeline, and the result collector
then counts it among the failed chapters — it is not reported as skipped. -/
theorem emptyChapterCountedFailed :
    (processSingleChapter false true "" "parts" [] 3 "t" [] (fun _ => none)
      (fun _ => none)).2 = false ∧
    recordOutcome (processSingleChapter false true "" "parts" [] 3 "t" [] (fun _ => none)
      (fun _ => none)).2 3 [] [] = ([], [3]) := by
  decide

/-- Claim C1 amended: a chapter that is not already complete and whose
content yields zero synthesis chunks returns failure — it is counted among
the failed chapters, not reported as skipped — although no parts and no
final artifact are created (the store is unchanged) and no failure-handling
deletion runs. -/
theorem emptyChapterOutcome (cleanupFlag : Bool) (bookSub partsSub : String)
    (st : Store) (n : Nat) (t : String) (synth : Nat → Option (List Nat))
    (ffmpeg : List (List Nat) → Option (List Nat))
    (hnc : isChapterCompletedStorage st bookSub n t = false) :
    processSingleChapter false cleanupFlag bookSub partsSub st n t [] synth ffmpeg =
      (st, false) ∧
    ∀ completed failed, recordOutcome false n completed failed =
      (completed, failed ++ [n]) := by
  constructor
  · simp [processSingleChapter, hnc, synthesizeChapter]
  · intro c f
    simp [recordOutcome]

/-- Claim C1 amended, witness at the empty store. -/
theorem emptyChapterOutcomeWitness :
    processSingleChapter false true "" "parts" [] 3 "t" [] (fun _ => some [1])
      (fun _ => some [2]) = ([], false) ∧
    recordOutcome false 3 [] [] = ([], [3]) := by
  have h := emptyChapterOutcome true "" "parts" [] 3 "t" (fun _ => some [1])
    (fun _ => some [2]) (by decide)
  exact ⟨h.1, h.2 [] []⟩

set_option maxRecDepth 8000 in
/-- Claim C2 (code-bug evidence): synthesis of chapter 1 fails on part 2 of
3 after part 1 was durably written and validated.  The pipeline reports the
chapter failed, but the failure handler deletes nothing: the local parts
list in _process_single_chapter is still empty when synthesize_chapter
raises, so part 1 is left behind in storage instead of being best-effort
deleted. -/
theorem synthFailureLeavesPartBehind :
    (processSingleChapter false true "" "parts" [] 1 "t" ["c1", "c2", "c3"]
      (fun k => if k = 2 then none else some sampleMp3) (fun _ => none)).2 = false ∧
    findS (processSingleChapter false true "" "parts" [] 1 "t" ["c1", "c2", "c3"]
      (fun k => if k = 2 then none else some sampleMp3) (fun _ => none)).1
      "parts/chapter_01_part_001_of_003_t.mp3" = some sampleMp3 := by
  decide

/-! ## Lemmas for the chunking bound (claim C10) -/

set_option maxHeartbeats 1000000

theorem byteLen_append (a b : List Char) : byteLen (a ++ b) = byteLen a + byteLen b := by
  induction a with
  | nil => simp [byteLen]
  | cons c cs ih => simp [byteLen, ih]; omega

theorem byteLen_reverse (l : List Char) : byteLen l.reverse = byteLen l := by
  induction l with
  | nil => rfl
  | cons c cs ih => simp [byteLen, List.reverse_cons, byteLen_append, ih]; omega

theorem byteLen_mono (l1 l2 : List Char) (h : l1.Sublist l2) :
    byteLen l1 ≤ byteLen l2 := by
  induction h with
  | slnil => exact Nat.le_refl _
  | cons a _ ih =>
    refine Nat.le_trans ih ?_
    simp [byteLen]
  | cons₂ a _ ih =>
    simp only [byteLen]
    exact Nat.add_le_add_left ih _

theorem byteLen_replicate (n : Nat) : byteLen (List.replicate n 'a') = n := by
  induction n with
  | zero => rfl
  | succ k ih =>
    rw [List.replicate_succ]
    simp [byteLen, ih, show charBytes 'a' = 1 from rfl]
    omega

theorem pyStrip_byteLen_le (l : List Char) : byteLen (pyStrip l) ≤ byteLen l := by
  unfold pyStrip
  rw [byteLen_reverse]
  refine Nat.le_trans (byteLen_mono _ _ (List.dropWhile_sublist _)) ?_
  rw [byteLen_reverse]
  exact byteLen_mono _ _ (List.dropWhile_sublist _)

theorem pyStrip_subset (l : List Char) : ∀ x ∈ pyStrip l, x ∈ l := by
  intro x hx
  unfold pyStrip at hx
  rw [List.mem_reverse] at hx
  have hx2 := (List.dropWhile_sublist _).subset hx
  rw [List.mem_reverse] at hx2
  exact (List.dropWhile_sublist _).subset hx2

theorem pyStrip_replicate (n : Nat) :
    pyStrip (List.replicate n 'a') = List.replicate n 'a' := by
  have hdw : (List.replicate n 'a').dropWhile isPySpace = List.replicate n 'a' := by
    cases n with
    | zero => rfl
    | succ k =>
      rw [List.replicate_succ, List.dropWhile_cons]
      simp [show isPySpace 'a' = false from rfl]
  unfold pyStrip
  rw [hdw, List.reverse_replicate, hdw, List.reverse_replicate]

theorem protYearGo_replicate (fuel n : Nat) :
    protYearGo fuel (List.replicate n 'a') = List.replicate n 'a' := by
  induction fuel generalizing n with
  | zero => cases n <;> simp [protYearGo, List.replicate_succ]
  | succ f ih =>
    cases n with
    | zero => simp [protYearGo]
    | succ k =>
      rw [List.replicate_succ, protYearGo]
      simp [show isPySpace 'a' = false from rfl, ih]

theorem protYear_replicate (n : Nat) :
    protYear (List.replicate n 'a') = List.replicate n 'a' := by
  simp [protYear, protYearGo_replicate]

theorem protYearsGo_replicate (fuel n : Nat) :
    protYearsGo fuel (List.replicate n 'a') = List.replicate n 'a' := by
  induction fuel generalizing n with
  | zero => cases n <;> simp [protYearsGo, List.replicate_succ]
  | succ f ih =>
    cases n with
    | zero => simp [protYearsGo]
    | succ k =>
      rw [List.replicate_succ, protYearsGo]
      simp [show isPySpace 'a' = false from rfl, ih]

theorem protYears_replicate (n : Nat) :
    protYears (List.replicate n 'a') = List.replicate n 'a' := by
  simp [protYears, protYearsGo_replicate]

theorem protPairGo_replicate (x y : Char) (fuel n : Nat) :
    protPairGo x y fuel (List.replicate n 'a') = List.replicate n 'a' := by
  induction fuel generalizing n with
  | zero => cases n <;> simp [protPairGo, List.replicate_succ]
  | succ f ih =>
    cases n with
    | zero => simp [protPairGo]
    | succ k =>
      rw [List.replicate_succ, protPairGo]
      simp [show isPySpace 'a' = false from rfl, ih]

theorem protPair_replicate (x y : Char) (n : Nat) :
    protPair x y (List.replicate n 'a') = List.replicate n 'a' := by
  simp [protPair, protPairGo_replicate]

theorem protSingleGo_replicate (x : Char) (fuel n : Nat) :
    protSingleGo x fuel (List.replicate n 'a') = List.replicate n 'a' := by
  induction fuel generalizing n with
  | zero => cases n <;> simp [protSingleGo, List.replicate_succ]
  | succ f ih =>
    cases n with
    | zero => simp [protSingleGo]
    | succ k =>
      rw [List.replicate_succ, protSingleGo]
      simp [show isPySpace 'a' = false from rfl, ih]

theorem protSingle_replicate (x : Char) (n : Nat) :
    protSingle x (List.replicate n 'a') = List.replicate n 'a' := by
  simp [protSingle, protSingleGo_replicate]

theorem protStreetGo_replicate (fuel n : Nat) :
    protStreetGo fuel (List.replicate n 'a') = List.replicate n 'a' := by
  induction fuel generalizing n with
  | zero => cases n <;> simp [protStreetGo, List.replicate_succ]
  | succ f ih =>
    cases n with
    | zero => simp [protStreetGo]
    | succ k =>
      rw [List.replicate_succ, protStreetGo]
      simp [show isPySpace 'a' = false from rfl, ih]

theorem protStreet_replicate (n : Nat) :
    protStreet (List.replicate n 'a') = List.replicate n 'a' := by
  simp [protStreet, protStreetGo_replicate]

theorem protInitialsGo_replicate (fuel n : Nat) :
    protInitialsGo fuel (List.replicate n 'a') = List.replicate n 'a' := by
  induction fuel generalizing n with
  | zero => cases n <;> simp [protInitialsGo, List.replicate_succ]
  | succ f ih =>
    cases n with
    | zero => simp [protInitialsGo]
    | succ k =>
      rw [List.replicate_succ, protInitialsGo]
      simp [show isCyrCap 'a' = false from rfl, ih]

theorem protInitials_replicate (n : Nat) :
    protInitials (List.replicate n 'a') = List.replicate n 'a' := by
  simp [protInitials, protInitialsGo_replicate]

theorem protectAbbrevs_replicate (n : Nat) :
    protectAbbrevs (List.replicate n 'a') = List.replicate n 'a' := by
  simp [protectAbbrevs, protYear_replicate, protYears_replicate, protPair_replicate,
    protSingle_replicate, protStreet_replicate, protInitials_replicate]

theorem dotRestore_replicate (n : Nat) :
    dotRestore (List.replicate n 'a') = List.replicate n 'a' := by
  induction n with
  | zero => simp [dotRestore]
  | succ k ih =>
    rw [List.replicate_succ, dotRestore]
    · simp [ih]
    · exact fun _ h _ => absurd h (by decide)

theorem sentSplitAuxGo_replicate (fuel : Nat) (n : Nat) (acc : List Char) :
    sentSplitAuxGo fuel acc (List.replicate n 'a') =
      [acc.reverse ++ List.replicate n 'a'] := by
  induction fuel generalizing n acc with
  | zero => cases n <;> simp [sentSplitAuxGo, List.replicate_succ]
  | succ f ih =>
    cases n with
    | zero => simp [sentSplitAuxGo]
    | succ k =>
      rw [List.replicate_succ, sentSplitAuxGo]
      simp only [show isSentEnd 'a' = false from rfl, Bool.false_and, Bool.false_eq_true,
        if_false]
      rw [ih k ('a' :: acc)]
      simp [List.replicate_succ]

theorem sentSplitAux_replicate (n : Nat) (acc : List Char) :
    sentSplitAux acc (List.replicate n 'a') = [acc.reverse ++ List.replicate n 'a'] := by
  simp [sentSplitAux, sentSplitAuxGo_replicate]

theorem splitSentences_replicate (n : Nat) :
    splitSentences (List.replicate (n + 1) 'a') = [List.replicate (n + 1) 'a'] := by
  unfold splitSentences
  rw [protectAbbrevs_replicate, sentSplitAux_replicate]
  have h3 : List.replicate (n + 1) 'a' ≠ ([] : List Char) := by
    simp [List.replicate_succ]
  simp only [List.reverse_nil, List.nil_append, List.map_cons, List.map_nil,
    dotRestore_replicate, pyStrip_replicate]
  simp [List.filter, h3]

theorem takeWhileNotWs_replicate (n : Nat) :
    (List.replicate n 'a').takeWhile (fun d => !isPySpace d) = List.replicate n 'a' := by
  induction n with
  | zero => rfl
  | succ k ih =>
    rw [List.replicate_succ, List.takeWhile_cons]
    simp [show isPySpace 'a' = false from rfl, ih, List.replicate_succ]

theorem dropWhileNotWs_replicate (n : Nat) :
    (List.replicate n 'a').dropWhile (fun d => !isPySpace d) = [] := by
  induction n with
  | zero => rfl
  | succ k ih =>
    rw [List.replicate_succ, List.dropWhile_cons]
    simp [show isPySpace 'a' = false from rfl, ih]

theorem pySplitWords_replicate (n : Nat) :
    pySplitWords (List.replicate (n + 1) 'a') = [List.replicate (n + 1) 'a'] := by
  unfold pySplitWords
  rw [List.length_replicate, List.replicate_succ, pySplitWordsGo]
  simp [show isPySpace 'a' = false from rfl, takeWhileNotWs_replicate,
    dropWhileNotWs_replicate, pySplitWordsGo, List.replicate_succ]

theorem takeWhileNotPunct_replicate (n : Nat) :
    (List.replicate n 'a').takeWhile (fun c => !isClausePunct c) = List.replicate n 'a' := by
  induction n with
  | zero => rfl
  | succ k ih =>
    rw [List.replicate_succ, List.takeWhile_cons]
    simp [show isClausePunct 'a' = false from rfl, ih, List.replicate_succ]

theorem dropWhileNotPunct_replicate (n : Nat) :
    (List.replicate n 'a').dropWhile (fun c => !isClausePunct c) = [] := by
  induction n with
  | zero => rfl
  | succ k ih =>
    rw [List.replicate_succ, List.dropWhile_cons]
    simp [show isClausePunct 'a' = false from rfl, ih]

theorem reSplitClause_replicate (n : Nat) :
    reSplitClause (List.replicate (n + 1) 'a') = [List.replicate (n + 1) 'a'] := by
  unfold reSplitClause
  rw [List.length_replicate, reSplitClauseGo]
  simp only [takeWhileNotPunct_replicate, dropWhileNotPunct_replicate]

theorem splitByWords_bigWord (n maxB : Nat) (h : maxB < n + 1) :
    splitByWords (List.replicate (n + 1) 'a') maxB = [List.replicate (n + 1) 'a'] := by
  unfold splitByWords
  rw [pySplitWords_replicate, sbwLoop]
  simp only [byteLen_replicate, sbwLoop, pyStrip_replicate, List.replicate_eq_nil_iff]
  simp [h, byteLen_replicate, pyStrip_replicate]

theorem splitLongSentence_bigWord (n maxB : Nat) (h : maxB < n + 1) :
    splitLongSentence (List.replicate (n + 1) 'a') maxB = [List.replicate (n + 1) 'a'] := by
  unfold splitLongSentence
  rw [reSplitClause_replicate, slsLoop]
  simp only [byteLen_replicate, List.nil_append, splitByWords_bigWord n maxB h, slsLoop,
    pyStrip_replicate, List.replicate_eq_nil_iff]
  simp [h, byteLen_replicate, pyStrip_replicate]

theorem splitIntoChunks_bigWord (n maxB : Nat) (h : maxB < n + 1) :
    splitIntoChunks (List.replicate (n + 1) 'a') maxB = [List.replicate (n + 1) 'a'] := by
  unfold splitIntoChunks
  rw [if_neg (by simp), splitSentences_replicate, sicLoop]
  simp only [byteLen_replicate, byteLen, splitLongSentence_bigWord n maxB h, sicLoop,
    pyStrip_replicate, List.replicate_eq_nil_iff, List.nil_append]
  simp [h, byteLen_replicate, pyStrip_replicate]

/-- The invariant the chunker actually guarantees: a chunk fits the byte
budget, or it is a single whitespace-free word that could not be split any
further. -/
def ChunkOk (maxB : Nat) (c : List Char) : Prop :=
  byteLen c ≤ maxB ∨ ∀ ch ∈ c, isPySpace ch = false

theorem chunkOk_pyStrip (maxB : Nat) (c : List Char) (h : ChunkOk maxB c) :
    ChunkOk maxB (pyStrip c) := by
  rcases h with h | h
  · exact Or.inl (Nat.le_trans (pyStrip_byteLen_le c) h)
  · exact Or.inr (fun ch hch => h ch (pyStrip_subset c ch hch))

theorem getLastD_nil_or_mem (l : List (List Char)) :
    l.getLastD [] = [] ∨ l.getLastD [] ∈ l := by
  cases l with
  | nil => exact Or.inl rfl
  | cons a as =>
    right
    rw [List.getLastD_cons]
    exact List.getLastD_mem_cons as a

theorem pySplitWordsGo_wf (fuel : Nat) (l : List Char) :
    ∀ w ∈ pySplitWordsGo fuel l, w ≠ [] ∧ ∀ ch ∈ w, isPySpace ch = false := by
  induction fuel generalizing l with
  | zero => cases l <;> simp [pySplitWordsGo]
  | succ f ih =>
    cases l with
    | nil => simp [pySplitWordsGo]
    | cons c cs =>
      rw [pySplitWordsGo]
      by_cases hc : isPySpace c
      · simp only [if_pos hc]
        exact ih cs
      · simp only [if_neg hc]
        intro w hw
        rcases List.mem_cons.mp hw with h | h
        · subst h
          refine ⟨by simp, ?_⟩
          intro ch hch
          rcases List.mem_cons.mp hch with h2 | h2
          · subst h2
            simpa using hc
          · simpa using List.mem_takeWhile_imp h2
        · exact ih _ w h

theorem pySplitWords_wf (l : List Char) :
    ∀ w ∈ pySplitWords l, w ≠ [] ∧ ∀ ch ∈ w, isPySpace ch = false :=
  pySplitWordsGo_wf l.length l

theorem sbwLoop_ok (maxB : Nat) (words : List (List Char)) (current : List Char)
    (parts : List (List Char))
    (hw : ∀ w ∈ words, w ≠ [] ∧ ∀ ch ∈ w, isPySpace ch = false)
    (hc : current = [] ∨ ChunkOk maxB current)
    (hp : ∀ c ∈ parts, ChunkOk maxB c) :
    ∀ c ∈ sbwLoop maxB words current parts, ChunkOk maxB c := by
  induction words generalizing current parts with
  | nil =>
    intro c hmem
    rw [sbwLoop] at hmem
    by_cases hcur : current = []
    · rw [if_pos hcur] at hmem
      exact hp c hmem
    · rw [if_neg hcur] at hmem
      rcases List.mem_append.mp hmem with hmem | hmem
      · exact hp c hmem
      · have hceq : c = pyStrip current := by simpa using hmem
        subst hceq
        rcases hc with h | h
        · exact absurd h hcur
        · exact chunkOk_pyStrip maxB current h
  | cons w ws ih =>
    intro c hmem
    have hw0 := hw w (List.mem_cons_self w ws)
    have hwtl : ∀ v ∈ ws, v ≠ [] ∧ ∀ ch ∈ v, isPySpace ch = false :=
      fun v hv => hw v (List.mem_cons_of_mem w hv)
    rw [sbwLoop] at hmem
    by_cases hcur : current = []
    · simp only [hcur, if_pos rfl, reduceIte] at hmem
      by_cases hbig : byteLen w > maxB
      · rw [if_pos hbig] at hmem
        exact ih w parts hwtl (Or.inr (Or.inr hw0.2)) hp c hmem
      · rw [if_neg hbig] at hmem
        exact ih w parts hwtl (Or.inr (Or.inl (Nat.le_of_not_lt hbig))) hp c hmem
    · simp only [if_neg hcur] at hmem
      by_cases hbig : byteLen (current ++ ' ' :: w) > maxB
      · rw [if_pos hbig] at hmem
        have hp2 : ∀ d ∈ parts ++ [pyStrip current], ChunkOk maxB d := by
          intro d hd
          rcases List.mem_append.mp hd with hd | hd
          · exact hp d hd
          · have hdeq : d = pyStrip current := by simpa using hd
            subst hdeq
            rcases hc with h | h
            · exact absurd h hcur
            · exact chunkOk_pyStrip maxB current h
        exact ih w (parts ++ [pyStrip current]) hwtl (Or.inr (Or.inr hw0.2)) hp2 c hmem
      · rw [if_neg hbig] at hmem
        exact ih (current ++ ' ' :: w) parts hwtl
          (Or.inr (Or.inl (Nat.le_of_not_lt hbig))) hp c hmem

theorem splitByWords_ok (maxB : Nat) (text : List Char) :
    ∀ c ∈ splitByWords text maxB, ChunkOk maxB c := by
  intro c hc
  exact sbwLoop_ok maxB (pySplitWords text) [] [] (pySplitWords_wf text) (Or.inl rfl)
    (fun d hd => absurd hd (List.not_mem_nil d)) c hc

theorem slsLoop_ok (maxB : Nat) (subs : List (List Char)) (current : List Char)
    (parts : List (List Char))
    (hc : current = [] ∨ ChunkOk maxB current)
    (hp : ∀ c ∈ parts, ChunkOk maxB c) :
    ∀ c ∈ slsLoop maxB subs current parts, ChunkOk maxB c := by
  induction subs generalizing current parts with
  | nil =>
    intro c hmem
    rw [slsLoop] at hmem
    by_cases hcur : current = []
    · rw [if_pos hcur] at hmem
      exact hp c hmem
    · rw [if_neg hcur] at hmem
      rcases List.mem_append.mp hmem with hmem | hmem
      · exact hp c hmem
      · have hceq : c = pyStrip current := by simpa using hmem
        subst hceq
        rcases hc with h | h
        · exact absurd h hcur
        · exact chunkOk_pyStrip maxB current h
  | cons sub rest ih =>
    intro c hmem
    rw [slsLoop] at hmem
    by_cases hsub : sub = []
    · rw [if_pos hsub] at hmem
      exact ih current parts hc hp c hmem
    · rw [if_neg hsub] at hmem
      by_cases hbig : byteLen (current ++ sub) > maxB
      · rw [if_pos hbig] at hmem
        have hp1 : ∀ d ∈ (if current = [] then parts else parts ++ [pyStrip current]),
            ChunkOk maxB d := by
          by_cases hcur : current = []
          · rw [if_pos hcur]
            exact hp
          · rw [if_neg hcur]
            intro d hd
            rcases List.mem_append.mp hd with hd | hd
            · exact hp d hd
            · have hdeq : d = pyStrip current := by simpa using hd
              subst hdeq
              rcases hc with h | h
              · exact absurd h hcur
              · exact chunkOk_pyStrip maxB current h
        by_cases hbig2 : byteLen sub > maxB
        · rw [if_pos hbig2] at hmem
          have hwp : ∀ d ∈ splitByWords sub maxB, ChunkOk maxB d := splitByWords_ok maxB sub
          have hc2 : (splitByWords sub maxB).getLastD [] = [] ∨
              ChunkOk maxB ((splitByWords sub maxB).getLastD []) := by
            rcases getLastD_nil_or_mem (splitByWords sub maxB) with h | h
            · exact Or.inl h
            · exact Or.inr (hwp _ h)
          have hp2 : ∀ d ∈ (if current = [] then parts else parts ++ [pyStrip current]) ++
              (splitByWords sub maxB).dropLast, ChunkOk maxB d := by
            intro d hd
            rcases List.mem_append.mp hd with hd | hd
            · exact hp1 d hd
            · exact hwp d ((List.dropLast_sublist _).subset hd)
          exact ih _ _ hc2 hp2 c hmem
        · rw [if_neg hbig2] at hmem
          exact ih sub _ (Or.inr (Or.inl (Nat.le_of_not_lt hbig2))) hp1 c hmem
      · rw [if_neg hbig] at hmem
        exact ih (current ++ sub) parts (Or.inr (Or.inl (Nat.le_of_not_lt hbig))) hp c hmem

theorem splitLongSentence_ok (maxB : Nat) (s : List Char) :
    ∀ c ∈ splitLongSentence s maxB, ChunkOk maxB c := by
  intro c hc
  exact slsLoop_ok maxB (reSplitClause s) [] [] (Or.inl rfl)
    (fun d hd => absurd hd (List.not_mem_nil d)) c hc

theorem sicLoop_ok (maxB : Nat) (sentences : List (List Char)) (current : List Char)
    (chunks : List (List Char))
    (hc : current = [] ∨ ChunkOk maxB current)
    (hp : ∀ c ∈ chunks, ChunkOk maxB c) :
    ∀ c ∈ sicLoop maxB sentences current chunks, ChunkOk maxB c := by
  induction sentences generalizing current chunks with
  | nil =>
    intro c hmem
    rw [sicLoop] at hmem
    by_cases hcur : current = []
    · rw [if_pos hcur] at hmem
      exact hp c hmem
    · rw [if_neg hcur] at hmem
      rcases List.mem_append.mp hmem with hmem | hmem
      · exact hp c hmem
      · have hceq : c = pyStrip current := by simpa using hmem
        subst hceq
        rcases hc with h | h
        · exact absurd h hcur
        · exact chunkOk_pyStrip maxB current h
  | cons s rest ih =>
    intro c hmem
    rw [sicLoop] at hmem
    have hp1 : ∀ d ∈ (if current = [] then chunks else chunks ++ [pyStrip current]),
        ChunkOk maxB d := by
      by_cases hcur : current = []
      · rw [if_pos hcur]
        exact hp
      · rw [if_neg hcur]
        intro d hd
        rcases List.mem_append.mp hd with hd | hd
        · exact hp d hd
        · have hdeq : d = pyStrip current := by simpa using hd
          subst hdeq
          rcases hc with h | h
          · exact absurd h hcur
          · exact chunkOk_pyStrip maxB current h
    by_cases hover : byteLen current + byteLen s + 1 > maxB
    · rw [if_pos hover] at hmem
      by_cases hbig : byteLen s > maxB
      · rw [if_pos hbig] at hmem
        have hsc : ∀ d ∈ splitLongSentence s maxB, ChunkOk maxB d :=
          splitLongSentence_ok maxB s
        have hc2 : (splitLongSentence s maxB).getLastD [] = [] ∨
            ChunkOk maxB ((splitLongSentence s maxB).getLastD []) := by
          rcases getLastD_nil_or_mem (splitLongSentence s maxB) with h | h
          · exact Or.inl h
          · exact Or.inr (hsc _ h)
        have hp2 : ∀ d ∈ (if current = [] then chunks else chunks ++ [pyStrip current]) ++
            (splitLongSentence s maxB).dropLast, ChunkOk maxB d := by
          intro d hd
          rcases List.mem_append.mp hd with hd | hd
          · exact hp1 d hd
          · exact hsc d ((List.dropLast_sublist _).subset hd)
        exact ih _ _ hc2 hp2 c hmem
      · rw [if_neg hbig] at hmem
        exact ih s _ (Or.inr (Or.inl (Nat.le_of_not_lt hbig))) hp1 c hmem
    · rw [if_neg hover] at hmem
      have hle := Nat.le_of_not_lt hover
      by_cases hcur : current = []
      · rw [if_pos hcur] at hmem
        refine ih s chunks (Or.inr (Or.inl ?_)) hp c hmem
        omega
      · rw [if_neg hcur] at hmem
        refine ih (current ++ ' ' :: s) chunks (Or.inr (Or.inl ?_)) hp c hmem
        rw [byteLen_append]
        simp only [byteLen, show charBytes ' ' = 1 from rfl]
        omega

/-- Claim C10 counterexample: a single whitespace-free word of 5001 bytes
passes through split_into_chunks unsplit, so the resulting chunk exceeds the
configured 4800-byte maximum and trips the 5000-byte size-violation branch
of synthesize_text — that branch is reachable on chunks the pipeline
produces. -/
theorem oversizedWordBreaksChunkBudget :
    splitIntoChunks (List.replicate 5001 'a') maxChunkBytes =
      [List.replicate 5001 'a'] ∧
    byteLen (List.replicate 5001 'a') > maxChunkBytes ∧
    synthTextTooLarge (List.replicate 5001 'a') = true := by
  refine ⟨splitIntoChunks_bigWord 5000 maxChunkBytes (by norm_num [maxChunkBytes]), ?_, ?_⟩
  · rw [byteLen_replicate]
    norm_num [maxChunkBytes]
  · unfold synthTextTooLarge
    rw [byteLen_replicate]
    decide

/-- Claim C10 amended: every chunk produced by split_into_chunks either fits
the configured byte budget or is a single whitespace-free word that the
word-level splitter could not break further; only such oversized words can
reach the size-violation branch of synthesize_text. -/
theorem splitIntoChunksChunkBound (text : List Char) (maxB : Nat) :
    ∀ c ∈ splitIntoChunks text maxB,
      byteLen c ≤ maxB ∨ ∀ ch ∈ c, isPySpace ch = false := by
  intro c hc
  unfold splitIntoChunks at hc
  by_cases ht : text = []
  · rw [if_pos ht] at hc
    exact absurd hc (List.not_mem_nil c)
  · rw [if_neg ht] at hc
    exact sicLoop_ok maxB (splitSentences text) [] [] (Or.inl rfl)
      (fun d hd => absurd hd (List.not_mem_nil d)) c hc

/-- Claim C10 amended, witness on a small concrete input. -/
theorem splitIntoChunksChunkBoundWitness :
    byteLen "hi there".data ≤ 20 ∨ ∀ ch ∈ "hi there".data, isPySpace ch = false :=
  splitIntoChunksChunkBound "hi there".data 20 "hi there".data (by decide)

end Audiobook
